import Mathlib

set_option maxHeartbeats 1000000

/-!
Shallow embedding of the tic-tac-toe game implemented in `src/main.go`
(package main of the apples-and-pears repository).

The Go program keeps a 3x3 board of cells (`Empty`, `X`, `O`), a current
turn, a game state (`Playing`, `XWins`, `OWins`, `Draw`) and an AI delay
counter.  The human plays `X` via mouse clicks; the AI plays `O`.  The
rendering, asset loading and windowing code is out of scope; the frame
callback `Update` and the helpers `makeAIMove`, `Reset`, `checkWin` and
`checkDraw` are embedded below.

Machine values: the Go cell coordinates derived from the cursor are
modelled as `Int` (the board row and column of the attempted click); the
AI random draw `rng.Intn(n)` is modelled by an arbitrary natural number
taken modulo `n`, which ranges over exactly the values `Intn` can
return.
-/

/-! ### Data model and operations, translated from src/main.go -/

inductive Cell : Type
  | Empty
  | X
  | O
deriving DecidableEq, Fintype

inductive GameState : Type
  | Playing
  | XWins
  | OWins
  | Draw
deriving DecidableEq

abbrev Pos : Type := Fin 3 × Fin 3

abbrev Board : Type := Pos → Cell

/-- Row-major enumeration of all nine board positions, in the order the
Go loops `for row ... for col ...` visit them. -/
def positions : List Pos :=
  [(0,0),(0,1),(0,2),(1,0),(1,1),(1,2),(2,0),(2,1),(2,2)]

/-- One line test of `checkWin` in `src/main.go`: the three cells hold
the same non-empty mark. -/
def tripleSame (b : Board) (p q r : Pos) : Bool :=
  decide (b p ≠ Cell.Empty ∧ b p = b q ∧ b q = b r)

/-- Embedding of `(*Game).checkWin` (src/main.go lines 245-269), with
the row and column loops unrolled: three rows, three columns, two
diagonals.  Note the Go function takes no mark argument. -/
def checkWin (b : Board) : Bool :=
  tripleSame b (0,0) (0,1) (0,2) || tripleSame b (1,0) (1,1) (1,2) ||
  tripleSame b (2,0) (2,1) (2,2) ||
  tripleSame b (0,0) (1,0) (2,0) || tripleSame b (0,1) (1,1) (2,1) ||
  tripleSame b (0,2) (1,2) (2,2) ||
  tripleSame b (0,0) (1,1) (2,2) || tripleSame b (0,2) (1,1) (2,0)

/-- Embedding of `(*Game).checkDraw` (src/main.go lines 271-280): the
Go loop returns `false` at the first `Empty` cell and `true`
otherwise. -/
def checkDraw (b : Board) : Bool :=
  positions.all (fun p => !(decide (b p = Cell.Empty)))

/-- Spec-side predicate, following the words of the specification: some
row, some column, or some diagonal of the board is entirely occupied by
the mark `m`.  Used to compare the code against the claims. -/
def winsFor (b : Board) (m : Cell) : Prop :=
  (∃ r : Fin 3, b (r, 0) = m ∧ b (r, 1) = m ∧ b (r, 2) = m) ∨
  (∃ c : Fin 3, b (0, c) = m ∧ b (1, c) = m ∧ b (2, c) = m) ∨
  (b (0,0) = m ∧ b (1,1) = m ∧ b (2,2) = m) ∨
  (b (0,2) = m ∧ b (1,1) = m ∧ b (2,0) = m)

instance winsForDec (b : Board) (m : Cell) : Decidable (winsFor b m) := by
  unfold winsFor; infer_instance

/-- Builds a board from its nine cell values, row-major. -/
def boardOf (c00 c01 c02 c10 c11 c12 c20 c21 c22 : Cell) : Board :=
  fun p =>
    match p.1.val, p.2.val with
    | 0, 0 => c00
    | 0, 1 => c01
    | 0, 2 => c02
    | 1, 0 => c10
    | 1, 1 => c11
    | 1, 2 => c12
    | 2, 0 => c20
    | 2, 1 => c21
    | _, _ => c22

/-- The predicate the AI win-scan in `makeAIMove` tests for each cell in
row-major order: the cell is empty and placing `O` there makes
`checkWin` true. -/
def aiScanPred (b : Board) (q : Pos) : Bool :=
  decide (b q = Cell.Empty) && checkWin (Function.update b q Cell.O)

/-- First phase of `makeAIMove` (src/main.go lines 131-144): the first
cell, in row-major order, at which hypothetically placing `O` makes
`checkWin` true; the hypothetical placement is undone otherwise. -/
def tryWinCell (b : Board) : Option Pos :=
  positions.find? (aiScanPred b)

/-- The row-major list of empty cells collected by `makeAIMove`
(src/main.go lines 153-160). -/
def emptyCells (b : Board) : List Pos :=
  positions.filter (fun q => decide (b q = Cell.Empty))

/-- The center cell (1,1). -/
def center : Pos := (1, 1)

/-- Embedding of `(*Game).makeAIMove` (src/main.go lines 127-166).  The
call `rng.Intn(len(emptyCells))` is modelled by `k % length` for an
arbitrary `k : Nat`, which ranges over exactly the indices `Intn` can
return. -/
def makeAIMove (b : Board) (k : Nat) : Board :=
  match tryWinCell b with
  | some p => Function.update b p Cell.O
  | none =>
    if b center = Cell.Empty then Function.update b center Cell.O
    else
      let ec := emptyCells b
      if h : 0 < ec.length then
        Function.update b (ec.get ⟨k % ec.length, Nat.mod_lt k h⟩) Cell.O
      else b

/-- Embedding of the `Game` struct (src/main.go lines 63-68), without
the rendering-only fields. -/
structure GState where
  board : Board
  currentTurn : Cell
  state : GameState
  aiDelay : Nat
deriving DecidableEq

/-- Per-frame input sampled by `Update`: whether the left mouse button
was just pressed, the board row and column the cursor falls in, and the
random draw used by the AI fallback. -/
structure Input where
  click : Bool
  row : Int
  col : Int
  rand : Nat

/-- Embedding of `NewGame` (src/main.go lines 70-75): zero-valued board
(all `Empty`), human `X` to move, `Playing`, zero delay. -/
def initGame : GState :=
  { board := fun _ => Cell.Empty
    currentTurn := Cell.X
    state := GameState.Playing
    aiDelay := 0 }

/-- Embedding of `(*Game).Reset` (src/main.go lines 234-243). -/
def resetGame (g : GState) : GState :=
  { g with
    board := fun _ => Cell.Empty
    currentTurn := Cell.X
    state := GameState.Playing
    aiDelay := 0 }

/-- The bounds check of the human move (src/main.go line 92):
`row >= 0 && row < BoardSize && col >= 0 && col < BoardSize`. -/
def inBounds (r c : Int) : Prop :=
  0 ≤ r ∧ r < 3 ∧ 0 ≤ c ∧ c < 3

instance (r c : Int) : Decidable (inBounds r c) := by
  unfold inBounds; infer_instance

/-- Converts in-range integer coordinates to a board position; the
modulo is irrelevant when `inBounds` holds. -/
def toPos (r c : Int) : Pos :=
  (⟨r.toNat % 3, by omega⟩, ⟨c.toNat % 3, by omega⟩)

/-- The body of the human move (src/main.go lines 93-102): place the
current mark, then check win, then draw, else hand the turn to the AI
with a 30-frame delay. -/
def humanPlace (g : GState) (p : Pos) : GState :=
  if checkWin (Function.update g.board p g.currentTurn) then
    { g with board := Function.update g.board p g.currentTurn,
             state := GameState.XWins }
  else if checkDraw (Function.update g.board p g.currentTurn) then
    { g with board := Function.update g.board p g.currentTurn,
             state := GameState.Draw }
  else
    { g with board := Function.update g.board p g.currentTurn,
             currentTurn := Cell.O, aiDelay := 30 }

/-- Embedding of `(*Game).Update` (src/main.go lines 77-125): terminal
states wait for a click and reset; on the `X` turn a valid click on an
empty cell plays the human move; otherwise the AI waits out its delay
and then moves, with win/draw evaluation after the move. -/
def update (g : GState) (i : Input) : GState :=
  if g.state ≠ GameState.Playing then
    if i.click then resetGame g else g
  else if g.currentTurn = Cell.X then
    if i.click = true ∧ inBounds i.row i.col ∧
        g.board (toPos i.row i.col) = Cell.Empty then
      humanPlace g (toPos i.row i.col)
    else g
  else
    if 0 < g.aiDelay then { g with aiDelay := g.aiDelay - 1 }
    else
      if checkWin (makeAIMove g.board i.rand) then
        { g with board := makeAIMove g.board i.rand, state := GameState.OWins }
      else if checkDraw (makeAIMove g.board i.rand) then
        { g with board := makeAIMove g.board i.rand, state := GameState.Draw }
      else
        { g with board := makeAIMove g.board i.rand, currentTurn := Cell.X }

/-- States reachable from the initial game by frame updates and
resets. -/
inductive Reachable : GState → Prop
  | init : Reachable initGame
  | step (g : GState) (i : Input) : Reachable g → Reachable (update g i)
  | reset (g : GState) : Reachable g → Reachable (resetGame g)

/-- Number of cells of the board holding the mark `m`. -/
def countMark (b : Board) (m : Cell) : Nat :=
  positions.countP (fun p => decide (b p = m))

/-- Strengthened inductive invariant: the turn is always a real mark,
while playing the mover is determined by the mark counts, and in a
terminal state the counts differ by zero or one. -/
def GameInv (g : GState) : Prop :=
  (g.currentTurn = Cell.X ∨ g.currentTurn = Cell.O) ∧
  (g.state = GameState.Playing → g.currentTurn = Cell.X →
    countMark g.board Cell.X = countMark g.board Cell.O) ∧
  (g.state = GameState.Playing → g.currentTurn = Cell.O →
    countMark g.board Cell.X = countMark g.board Cell.O + 1) ∧
  (g.state ≠ GameState.Playing →
    (countMark g.board Cell.X = countMark g.board Cell.O ∨
     countMark g.board Cell.X = countMark g.board Cell.O + 1))

/-! ### Concrete boards and states used by witnesses and
counterexamples -/

/-- The all-empty board. -/
def emptyBoard : Board := fun _ => Cell.Empty

/-- A board whose every cell holds `X`. -/
def fullBoardX : Board := fun _ => Cell.X

/-- Top row entirely `X`, every other cell empty. -/
def bRowX : Board :=
  boardOf Cell.X Cell.X Cell.X
    Cell.Empty Cell.Empty Cell.Empty
    Cell.Empty Cell.Empty Cell.Empty

/-- Row 0 empty, row 1 holding O O Empty, row 2 entirely `X`: the cell
(1,2) is the only cell completing a line of `O`, while row 2 is already
a completed line of `X`. -/
def bMixed : Board :=
  boardOf Cell.Empty Cell.Empty Cell.Empty
    Cell.O Cell.O Cell.Empty
    Cell.X Cell.X Cell.X

/-- Top row O O Empty, every other cell empty: (0,2) completes a line
of `O`. -/
def bTwoO : Board :=
  boardOf Cell.O Cell.O Cell.Empty
    Cell.Empty Cell.Empty Cell.Empty
    Cell.Empty Cell.Empty Cell.Empty

/-- Only the center holds a mark (an `X`). -/
def bCtrX : Board :=
  boardOf Cell.Empty Cell.Empty Cell.Empty
    Cell.Empty Cell.X Cell.Empty
    Cell.Empty Cell.Empty Cell.Empty

/-- Only (0,0) holds a mark (an `X`). -/
def bOneX : Board :=
  boardOf Cell.X Cell.Empty Cell.Empty
    Cell.Empty Cell.Empty Cell.Empty
    Cell.Empty Cell.Empty Cell.Empty

/-- Eight cells filled with no line, (2,2) empty; `X` to move there
draws. -/
def bAlmostDrawHuman : Board :=
  boardOf Cell.X Cell.O Cell.X
    Cell.X Cell.O Cell.O
    Cell.O Cell.X Cell.Empty

/-- Eight cells filled with no line, (2,2) empty; `O` to move there
draws. -/
def bAlmostDrawAI : Board :=
  boardOf Cell.X Cell.O Cell.X
    Cell.O Cell.O Cell.X
    Cell.X Cell.X Cell.Empty

/-- A game in a terminal state (`XWins` via the top row). -/
def gWon : GState :=
  { board := bRowX, currentTurn := Cell.X, state := GameState.XWins,
    aiDelay := 0 }

/-- A playing game with `O` (the AI) to move at once. -/
def gAI : GState :=
  { board := bOneX, currentTurn := Cell.O, state := GameState.Playing,
    aiDelay := 0 }

/-- A playing game one human move away from a draw. -/
def gDrawHuman : GState :=
  { board := bAlmostDrawHuman, currentTurn := Cell.X,
    state := GameState.Playing, aiDelay := 0 }

/-- A playing game one AI move away from a draw. -/
def gDrawAI : GState :=
  { board := bAlmostDrawAI, currentTurn := Cell.O,
    state := GameState.Playing, aiDelay := 0 }

/-! ### General lemmas about the embedded operations -/

lemma exists_fin3 (P : Fin 3 → Prop) : (∃ i, P i) ↔ P 0 ∨ P 1 ∨ P 2 := by
  constructor
  · rintro ⟨i, hi⟩
    fin_cases i
    · exact Or.inl hi
    · exact Or.inr (Or.inl hi)
    · exact Or.inr (Or.inr hi)
  · rintro (h | h | h) <;> exact ⟨_, h⟩

lemma triple_cases (x y z : Cell) :
    (x ≠ Cell.Empty ∧ x = y ∧ y = z) ↔
      ((x = Cell.X ∧ y = Cell.X ∧ z = Cell.X) ∨
       (x = Cell.O ∧ y = Cell.O ∧ z = Cell.O)) := by
  revert x y z
  decide

/-- The Go `checkWin` is true exactly when some line is entirely `X` or
entirely `O`; it is not parameterised by a mark. -/
theorem checkWin_iff (b : Board) :
    checkWin b = true ↔ winsFor b Cell.X ∨ winsFor b Cell.O := by
  unfold checkWin winsFor tripleSame
  simp only [Bool.or_eq_true, decide_eq_true_eq, exists_fin3, triple_cases]
  constructor
  · rintro ((((((((h | h) | (h | h)) | (h | h)) | (h | h)) | (h | h)) | (h | h)) |
      (h | h)) | (h | h))
    · exact Or.inl (Or.inl (Or.inl h))
    · exact Or.inr (Or.inl (Or.inl h))
    · exact Or.inl (Or.inl (Or.inr (Or.inl h)))
    · exact Or.inr (Or.inl (Or.inr (Or.inl h)))
    · exact Or.inl (Or.inl (Or.inr (Or.inr h)))
    · exact Or.inr (Or.inl (Or.inr (Or.inr h)))
    · exact Or.inl (Or.inr (Or.inl (Or.inl h)))
    · exact Or.inr (Or.inr (Or.inl (Or.inl h)))
    · exact Or.inl (Or.inr (Or.inl (Or.inr (Or.inl h))))
    · exact Or.inr (Or.inr (Or.inl (Or.inr (Or.inl h))))
    · exact Or.inl (Or.inr (Or.inl (Or.inr (Or.inr h))))
    · exact Or.inr (Or.inr (Or.inl (Or.inr (Or.inr h))))
    · exact Or.inl (Or.inr (Or.inr (Or.inl h)))
    · exact Or.inr (Or.inr (Or.inr (Or.inl h)))
    · exact Or.inl (Or.inr (Or.inr (Or.inr h)))
    · exact Or.inr (Or.inr (Or.inr (Or.inr h)))
  · rintro (((h | h | h) | (h | h | h) | h | h) | ((h | h | h) | (h | h | h) | h | h))
    · exact Or.inl (Or.inl (Or.inl (Or.inl (Or.inl (Or.inl (Or.inl (Or.inl h)))))))
    · exact Or.inl (Or.inl (Or.inl (Or.inl (Or.inl (Or.inl (Or.inr (Or.inl h)))))))
    · exact Or.inl (Or.inl (Or.inl (Or.inl (Or.inl (Or.inr (Or.inl h))))))
    · exact Or.inl (Or.inl (Or.inl (Or.inl (Or.inr (Or.inl h)))))
    · exact Or.inl (Or.inl (Or.inl (Or.inr (Or.inl h))))
    · exact Or.inl (Or.inl (Or.inr (Or.inl h)))
    · exact Or.inl (Or.inr (Or.inl h))
    · exact Or.inr (Or.inl h)
    · exact Or.inl (Or.inl (Or.inl (Or.inl (Or.inl (Or.inl (Or.inl (Or.inr h)))))))
    · exact Or.inl (Or.inl (Or.inl (Or.inl (Or.inl (Or.inl (Or.inr (Or.inr h)))))))
    · exact Or.inl (Or.inl (Or.inl (Or.inl (Or.inl (Or.inr (Or.inr h))))))
    · exact Or.inl (Or.inl (Or.inl (Or.inl (Or.inr (Or.inr h)))))
    · exact Or.inl (Or.inl (Or.inl (Or.inr (Or.inr h))))
    · exact Or.inl (Or.inl (Or.inr (Or.inr h)))
    · exact Or.inl (Or.inr (Or.inr h))
    · exact Or.inr (Or.inr h)

lemma mem_positions (p : Pos) : p ∈ positions := by
  obtain ⟨i, j⟩ := p
  fin_cases i <;> fin_cases j <;> decide

lemma positions_nodup : positions.Nodup := by decide

/-- The Go `checkDraw` is true exactly when no cell is `Empty`. -/
theorem checkDraw_iff (b : Board) :
    checkDraw b = true ↔ ∀ p, b p ≠ Cell.Empty := by
  unfold checkDraw
  rw [List.all_eq_true]
  constructor
  · intro h p
    have := h p (mem_positions p)
    simpa using this
  · intro h p _
    simpa using h p

/-- Any cell holding `m` still holds `m` after a different value `v` is
written anywhere on the board. -/
lemma cell_of_update {b : Board} {p q : Pos} {v m : Cell} (hvm : v ≠ m)
    (h : Function.update b p v q = m) : b q = m := by
  rcases eq_or_ne q p with rfl | hne
  · rw [Function.update_same] at h
    exact absurd h hvm
  · rwa [Function.update_noteq hne] at h

/-- Writing a value other than `m` cannot create a line of `m`. -/
lemma winsFor_of_update {b : Board} {p : Pos} {v m : Cell} (hvm : v ≠ m)
    (h : winsFor (Function.update b p v) m) : winsFor b m := by
  rcases h with ⟨r, h1, h2, h3⟩ | ⟨c, h1, h2, h3⟩ | ⟨h1, h2, h3⟩ | ⟨h1, h2, h3⟩
  · exact Or.inl ⟨r, cell_of_update hvm h1, cell_of_update hvm h2,
      cell_of_update hvm h3⟩
  · exact Or.inr (Or.inl ⟨c, cell_of_update hvm h1, cell_of_update hvm h2,
      cell_of_update hvm h3⟩)
  · exact Or.inr (Or.inr (Or.inl ⟨cell_of_update hvm h1, cell_of_update hvm h2,
      cell_of_update hvm h3⟩))
  · exact Or.inr (Or.inr (Or.inr ⟨cell_of_update hvm h1, cell_of_update hvm h2,
      cell_of_update hvm h3⟩))

/-- On a board with no completed line, placing an `O` produces a win in
the sense of the Go `checkWin` exactly when it completes a line of
`O`. -/
lemma place_win_iff {b : Board} (hw : checkWin b = false) (q : Pos) :
    checkWin (Function.update b q Cell.O) = true ↔
      winsFor (Function.update b q Cell.O) Cell.O := by
  rw [checkWin_iff]
  constructor
  · rintro (hX | hO)
    · have hbX : winsFor b Cell.X := winsFor_of_update (by simp) hX
      have : checkWin b = true := (checkWin_iff b).2 (Or.inl hbX)
      simp [hw] at this
    · exact hO
  · exact Or.inr

/-- A Bool equal to the truth value of a proposition equals its
decision. -/
lemma bool_eq_decide {x : Bool} {P : Prop} [Decidable P]
    (h : x = true ↔ P) : x = decide P := by
  by_cases hP : P
  · simp [hP, h.2 hP]
  · have hx : x = false := by
      cases x
      · rfl
      · exact absurd (h.1 rfl) hP
    simp [hx, hP]

/-- The decision of a conjunction is the conjunction of the
decisions. -/
lemma decide_and_split (A B : Prop) [Decidable A] [Decidable B] :
    decide (A ∧ B) = (decide A && decide B) := by
  by_cases hA : A <;> by_cases hB : B <;> simp [hA, hB]

/-- Whenever the board has an empty cell, `makeAIMove` writes `O` to
some single cell that was empty. -/
lemma makeAIMove_places (b : Board) (k : Nat) (h : ∃ p, b p = Cell.Empty) :
    ∃ p, b p = Cell.Empty ∧ makeAIMove b k = Function.update b p Cell.O := by
  unfold makeAIMove
  cases htry : tryWinCell b with
  | some p =>
    refine ⟨p, ?_, rfl⟩
    unfold tryWinCell at htry
    have hp := List.find?_some htry
    unfold aiScanPred at hp
    rw [Bool.and_eq_true, decide_eq_true_eq] at hp
    exact hp.1
  | none =>
    by_cases hc : b center = Cell.Empty
    · exact ⟨center, hc, by rw [if_pos hc]⟩
    · rw [if_neg hc]
      obtain ⟨p0, hp0⟩ := h
      have hmem : p0 ∈ emptyCells b :=
        List.mem_filter.2 ⟨mem_positions p0, by simp [hp0]⟩
      have hlen : 0 < (emptyCells b).length :=
        List.length_pos.2 (List.ne_nil_of_mem hmem)
      rw [dif_pos hlen]
      refine ⟨(emptyCells b).get ⟨k % (emptyCells b).length, Nat.mod_lt k hlen⟩,
        ?_, rfl⟩
      have hget := List.get_mem (emptyCells b)
        (k % (emptyCells b).length) (Nat.mod_lt k hlen)
      have := List.mem_filter.1 hget
      simpa using this.2

/-- On a full board, `makeAIMove` leaves the board unchanged. -/
lemma makeAIMove_full (b : Board) (k : Nat) (h : ∀ p, b p ≠ Cell.Empty) :
    makeAIMove b k = b := by
  unfold makeAIMove
  have htry : tryWinCell b = none := by
    unfold tryWinCell
    rw [List.find?_eq_none]
    intro q _
    simp [aiScanPred, h q]
  rw [htry, if_neg (h center)]
  have hec : emptyCells b = [] := by
    unfold emptyCells
    rw [List.filter_eq_nil_iff]
    intro q _
    simp [h q]
  simp [hec]

lemma countP_update_notmem (l : List Pos) (b : Board) (p : Pos) (m m' : Cell)
    (hp : p ∉ l) :
    l.countP (fun q => decide (Function.update b p m q = m')) =
      l.countP (fun q => decide (b q = m')) := by
  induction l with
  | nil => rfl
  | cons a t ih =>
    rw [List.countP_cons, List.countP_cons]
    have hap : a ≠ p := fun hap => hp (hap ▸ List.mem_cons_self a t)
    rw [Function.update_noteq hap]
    rw [ih (fun ht => hp (List.mem_cons_of_mem a ht))]

lemma countP_update (l : List Pos) (b : Board) (p : Pos) (m m' : Cell)
    (hnd : l.Nodup) (hp : p ∈ l) :
    l.countP (fun q => decide (Function.update b p m q = m')) +
        (if b p = m' then 1 else 0) =
      l.countP (fun q => decide (b q = m')) + (if m = m' then 1 else 0) := by
  induction l with
  | nil => cases hp
  | cons a t ih =>
    rw [List.nodup_cons] at hnd
    rw [List.countP_cons, List.countP_cons]
    rcases List.mem_cons.1 hp with rfl | hpt
    · rw [countP_update_notmem t b p m m' hnd.1, Function.update_same]
      by_cases h1 : m = m' <;> by_cases h2 : b p = m' <;> simp [h1, h2]
    · have hap : a ≠ p := fun hap => hnd.1 (hap ▸ hpt)
      rw [Function.update_noteq hap]
      have := ih hnd.2 hpt
      by_cases h2 : b a = m' <;> simp [h2] <;> omega

lemma countMark_update (b : Board) (p : Pos) (m m' : Cell) :
    countMark (Function.update b p m) m' + (if b p = m' then 1 else 0) =
      countMark b m' + (if m = m' then 1 else 0) :=
  countP_update positions b p m m' positions_nodup (mem_positions p)

lemma countMark_place_same (b : Board) (p : Pos) (m : Cell)
    (hp : b p = Cell.Empty) (hm : m ≠ Cell.Empty) :
    countMark (Function.update b p m) m = countMark b m + 1 := by
  have h := countMark_update b p m m
  rw [if_pos rfl, if_neg (fun hc => hm (by rw [← hc, hp]))] at h
  omega

lemma countMark_place_other (b : Board) (p : Pos) (m m' : Cell)
    (hp : b p ≠ m') (hm : m ≠ m') :
    countMark (Function.update b p m) m' = countMark b m' := by
  have h := countMark_update b p m m'
  rw [if_neg hp, if_neg hm] at h
  omega

lemma inv_init : GameInv initGame := by
  unfold GameInv
  decide

lemma inv_reset (g : GState) : GameInv (resetGame g) := inv_init

lemma inv_update (g : GState) (i : Input) (hg : GameInv g) :
    GameInv (update g i) := by
  obtain ⟨hturn, hPX, hPO, hT⟩ := hg
  unfold update
  by_cases hs : g.state = GameState.Playing
  · rw [if_neg (not_not_intro hs)]
    by_cases hx : g.currentTurn = Cell.X
    · rw [if_pos hx]
      by_cases hcl : i.click = true ∧ inBounds i.row i.col ∧
          g.board (toPos i.row i.col) = Cell.Empty
      · rw [if_pos hcl]
        unfold humanPlace
        obtain ⟨-, -, hemp⟩ := hcl
        have hcX : countMark (Function.update g.board (toPos i.row i.col)
            g.currentTurn) Cell.X = countMark g.board Cell.X + 1 := by
          rw [hx]
          exact countMark_place_same _ _ _ hemp (by decide)
        have hcO : countMark (Function.update g.board (toPos i.row i.col)
            g.currentTurn) Cell.O = countMark g.board Cell.O := by
          rw [hx]
          exact countMark_place_other _ _ _ _ (by rw [hemp]; decide) (by decide)
        have hXO := hPX hs hx
        by_cases hw : checkWin (Function.update g.board (toPos i.row i.col)
            g.currentTurn) = true
        · rw [if_pos hw]
          exact ⟨Or.inl hx, fun h => GameState.noConfusion h,
            fun h => GameState.noConfusion h,
            fun _ => Or.inr (by simp only [hcX, hcO]; omega)⟩
        · rw [if_neg hw]
          by_cases hdr : checkDraw (Function.update g.board (toPos i.row i.col)
              g.currentTurn) = true
          · rw [if_pos hdr]
            exact ⟨Or.inl hx, fun h => GameState.noConfusion h,
              fun h => GameState.noConfusion h,
              fun _ => Or.inr (by simp only [hcX, hcO]; omega)⟩
          · rw [if_neg hdr]
            exact ⟨Or.inr rfl, fun _ h => Cell.noConfusion h,
              fun _ _ => by simp only [hcX, hcO]; omega, fun h => absurd hs h⟩
      · rw [if_neg hcl]
        exact ⟨hturn, hPX, hPO, hT⟩
    · rw [if_neg hx]
      have hO : g.currentTurn = Cell.O := hturn.resolve_left hx
      by_cases hd : 0 < g.aiDelay
      · rw [if_pos hd]
        exact ⟨hturn, hPX, hPO, hT⟩
      · rw [if_neg hd]
        by_cases hne : ∃ p, g.board p = Cell.Empty
        · obtain ⟨p, hpe, hmv⟩ := makeAIMove_places g.board i.rand hne
          rw [hmv]
          have hcX : countMark (Function.update g.board p Cell.O) Cell.X =
              countMark g.board Cell.X :=
            countMark_place_other _ _ _ _ (by rw [hpe]; decide) (by decide)
          have hcO : countMark (Function.update g.board p Cell.O) Cell.O =
              countMark g.board Cell.O + 1 :=
            countMark_place_same _ _ _ hpe (by decide)
          have hXO := hPO hs hO
          by_cases hw : checkWin (Function.update g.board p Cell.O) = true
          · rw [if_pos hw]
            exact ⟨Or.inr hO, fun h => GameState.noConfusion h,
              fun h => GameState.noConfusion h,
              fun _ => Or.inl (by simp only [hcX, hcO]; omega)⟩
          · rw [if_neg hw]
            by_cases hdr : checkDraw (Function.update g.board p Cell.O) = true
            · rw [if_pos hdr]
              exact ⟨Or.inr hO, fun h => GameState.noConfusion h,
                fun h => GameState.noConfusion h,
                fun _ => Or.inl (by simp only [hcX, hcO]; omega)⟩
            · rw [if_neg hdr]
              exact ⟨Or.inl rfl, fun _ _ => by simp only [hcX, hcO]; omega,
                fun _ h => Cell.noConfusion h, fun h => absurd hs h⟩
        · push_neg at hne
          rw [makeAIMove_full g.board i.rand hne]
          have hdw : checkDraw g.board = true := (checkDraw_iff _).2 hne
          have hXO := hPO hs hO
          by_cases hw : checkWin g.board = true
          · rw [if_pos hw]
            exact ⟨Or.inr hO, fun h => GameState.noConfusion h,
              fun h => GameState.noConfusion h, fun _ => Or.inr hXO⟩
          · rw [if_neg hw, if_pos hdw]
            exact ⟨Or.inr hO, fun h => GameState.noConfusion h,
              fun h => GameState.noConfusion h, fun _ => Or.inr hXO⟩
  · rw [if_pos hs]
    by_cases hc : i.click = true
    · rw [if_pos hc]
      exact inv_reset g
    · rw [if_neg hc]
      exact ⟨hturn, hPX, hPO, hT⟩

lemma inv_reachable (g : GState) (h : Reachable g) : GameInv g := by
  induction h with
  | init => exact inv_init
  | step g i _ ih => exact inv_update g i ih
  | reset g _ _ => exact inv_reset g

/-! ### The claims -/

/-- Claim C1, counterexample: `checkWin` is not parameterised by a mark,
so it is not true that for every board and every mark it decides whether
some line is entirely that mark.  On the board whose top row is all `X`,
`checkWin` returns true although no line is entirely `O`. -/
theorem c1_counterexample :
    ¬ (checkWin bRowX = true ↔ winsFor bRowX Cell.O) := by decide

/-- Claim C1, amended: for every board, `checkWin` returns true if and
only if some row, some column, or some diagonal of the 3x3 board is
entirely occupied by a single non-empty mark, whichever of the two marks
it is. -/
theorem c1_theorem (b : Board) :
    checkWin b = true ↔ winsFor b Cell.X ∨ winsFor b Cell.O :=
  checkWin_iff b

/-- Claim C2, counterexample: on the board `bMixed` the first and only
empty cell whose filling with `O` completes a line of `O` is (1,2), yet
the AI does not place its mark there: row 2 is already a completed line
of `X`, so the win-scan (which tests the mark-insensitive `checkWin`)
returns at the first empty cell (0,0). -/
theorem c2_counterexample :
    (positions.find? (fun q => decide (bMixed q = Cell.Empty ∧
        winsFor (Function.update bMixed q Cell.O) Cell.O)) =
      some ((1 : Fin 3), (2 : Fin 3))) ∧
    makeAIMove bMixed 0 ≠
      Function.update bMixed ((1 : Fin 3), (2 : Fin 3)) Cell.O := by decide

/-- Claim C2, amended: on every board with no already-completed line
(the situation at every call site of `makeAIMove`), if some empty cell
completes a row, column or diagonal of `O` when filled with `O`, then
for every random draw the AI places `O` in the first such cell in
row-major scan order, regardless of whether the center is free. -/
theorem c2_theorem (b : Board) (k : Nat) (p : Pos)
    (hw : checkWin b = false)
    (hfind : positions.find? (fun q => decide (b q = Cell.Empty ∧
        winsFor (Function.update b q Cell.O) Cell.O)) = some p) :
    makeAIMove b k = Function.update b p Cell.O := by
  have hpred : aiScanPred b = fun q => decide (b q = Cell.Empty ∧
      winsFor (Function.update b q Cell.O) Cell.O) := by
    funext q
    unfold aiScanPred
    rw [decide_and_split, bool_eq_decide (place_win_iff hw q)]
  have htry : tryWinCell b = some p := by
    unfold tryWinCell
    rw [hpred]
    exact hfind
  unfold makeAIMove
  rw [htry]

/-- Claim C2, witness: with the top row `O O Empty` and the rest empty,
the AI completes its row at (0,2). -/
theorem c2_witness :
    makeAIMove bTwoO 0 = Function.update bTwoO ((0 : Fin 3), (2 : Fin 3)) Cell.O :=
  c2_theorem bTwoO 0 ((0 : Fin 3), (2 : Fin 3)) (by decide) (by decide)

/-- Claim C3: while `Playing` on the human turn, a click whose row or
column is outside the board or whose cell is occupied leaves the board,
the outcome state and the current turn unchanged. -/
theorem c3_theorem (g : GState) (i : Input)
    (hs : g.state = GameState.Playing) (hx : g.currentTurn = Cell.X)
    (hbad : ¬ inBounds i.row i.col ∨
      g.board (toPos i.row i.col) ≠ Cell.Empty) :
    (update g i).board = g.board ∧ (update g i).state = g.state ∧
      (update g i).currentTurn = g.currentTurn := by
  have hcl : ¬ (i.click = true ∧ inBounds i.row i.col ∧
      g.board (toPos i.row i.col) = Cell.Empty) := by
    rintro ⟨-, h2, h3⟩
    rcases hbad with hb | hb
    · exact hb h2
    · exact hb h3
  unfold update
  rw [if_neg (not_not_intro hs), if_pos hx, if_neg hcl]
  exact ⟨rfl, rfl, rfl⟩

/-- Claim C3, witness: a click at row 5 of the initial game changes
nothing. -/
theorem c3_witness :
    (update initGame ⟨true, 5, 0, 0⟩).board = initGame.board ∧
    (update initGame ⟨true, 5, 0, 0⟩).state = initGame.state ∧
    (update initGame ⟨true, 5, 0, 0⟩).currentTurn = initGame.currentTurn :=
  c3_theorem initGame ⟨true, 5, 0, 0⟩ rfl rfl (Or.inl (by decide))

/-- Claim C4: in every state reachable from the initial game by update
steps and resets, the number of cells holding `X` (MarkA) minus the
number holding `O` (MarkB) is between 0 and 1 inclusive. -/
theorem c4_theorem (g : GState) (h : Reachable g) :
    countMark g.board Cell.O ≤ countMark g.board Cell.X ∧
      countMark g.board Cell.X ≤ countMark g.board Cell.O + 1 := by
  obtain ⟨hturn, hPX, hPO, hT⟩ := inv_reachable g h
  by_cases hs : g.state = GameState.Playing
  · rcases hturn with hx | hO
    · have := hPX hs hx
      omega
    · have := hPO hs hO
      omega
  · rcases hT hs with h1 | h1 <;> omega

/-- Claim C4, witness: the initial game is reachable and its counts are
within the bound. -/
theorem c4_witness :
    countMark initGame.board Cell.O ≤ countMark initGame.board Cell.X ∧
      countMark initGame.board Cell.X ≤ countMark initGame.board Cell.O + 1 :=
  c4_theorem initGame Reachable.init

/-- Claim C5: in a terminal state no update changes anything except a
click, which resets to exactly the initial configuration: empty board,
turn `X`, state `Playing`. -/
theorem c5_theorem (g : GState) (i : Input)
    (hs : g.state ≠ GameState.Playing) :
    (i.click = false → update g i = g) ∧
    (i.click = true → update g i = initGame ∧
      (∀ p, (update g i).board p = Cell.Empty) ∧
      (update g i).currentTurn = Cell.X ∧
      (update g i).state = GameState.Playing) := by
  unfold update
  rw [if_pos hs]
  constructor
  · intro hc
    rw [if_neg (by simp [hc])]
  · intro hc
    rw [if_pos hc]
    exact ⟨rfl, fun p => rfl, rfl, rfl⟩

/-- Claim C5, witness: a won game is frozen without a click and resets
to the initial game on a click. -/
theorem c5_witness :
    (update gWon ⟨false, 0, 0, 0⟩ = gWon) ∧
    (update gWon ⟨true, 0, 0, 0⟩ = initGame) :=
  ⟨(c5_theorem gWon ⟨false, 0, 0, 0⟩ (by decide)).1 rfl,
   ((c5_theorem gWon ⟨true, 0, 0, 0⟩ (by decide)).2 rfl).1⟩

/-- Claim C6: every successful move made while `Playing` that leaves
the game in `Playing` hands the turn to the opposite mark: a valid
human click flips the turn to `O`, and an AI move with the delay at
zero flips it to `X`. -/
theorem c6_theorem (g : GState) (i : Input)
    (hs : g.state = GameState.Playing) :
    (g.currentTurn = Cell.X → i.click = true → inBounds i.row i.col →
      g.board (toPos i.row i.col) = Cell.Empty →
      (update g i).state = GameState.Playing →
      (update g i).currentTurn = Cell.O) ∧
    (g.currentTurn = Cell.O → g.aiDelay = 0 →
      (update g i).state = GameState.Playing →
      (update g i).currentTurn = Cell.X) := by
  unfold update
  rw [if_neg (not_not_intro hs)]
  constructor
  · intro hx hc hib hemp
    rw [if_pos hx, if_pos ⟨hc, hib, hemp⟩]
    unfold humanPlace
    by_cases hw : checkWin (Function.update g.board (toPos i.row i.col)
        g.currentTurn) = true
    · rw [if_pos hw]
      exact fun hp => absurd hp (fun h => GameState.noConfusion h)
    · rw [if_neg hw]
      by_cases hdr : checkDraw (Function.update g.board (toPos i.row i.col)
          g.currentTurn) = true
      · rw [if_pos hdr]
        exact fun hp => absurd hp (fun h => GameState.noConfusion h)
      · rw [if_neg hdr]
        exact fun _ => rfl
  · intro hO hd
    have hnx : ¬ g.currentTurn = Cell.X := by
      rw [hO]
      exact fun h => Cell.noConfusion h
    rw [if_neg hnx, if_neg (by simp [hd])]
    by_cases hw : checkWin (makeAIMove g.board i.rand) = true
    · rw [if_pos hw]
      exact fun hp => absurd hp (fun h => GameState.noConfusion h)
    · rw [if_neg hw]
      by_cases hdr : checkDraw (makeAIMove g.board i.rand) = true
      · rw [if_pos hdr]
        exact fun hp => absurd hp (fun h => GameState.noConfusion h)
      · rw [if_neg hdr]
        exact fun _ => rfl

/-- Claim C6, witness: the first human move hands the turn to `O`, and
an AI move on a one-`X` board hands it back to `X`. -/
theorem c6_witness :
    (update initGame ⟨true, 0, 0, 0⟩).currentTurn = Cell.O ∧
    (update gAI ⟨false, 0, 0, 0⟩).currentTurn = Cell.X :=
  ⟨(c6_theorem initGame ⟨true, 0, 0, 0⟩ rfl).1 rfl rfl (by decide) (by decide)
      (by decide),
   (c6_theorem gAI ⟨false, 0, 0, 0⟩ rfl).2 rfl rfl (by decide)⟩

/-- Claim C7, counterexample: on the board whose top row is already all
`X` and whose other cells are empty, no placement of `O` completes a
line of `O` and the center is free, yet the AI does not take the
center: its win-scan tests the mark-insensitive `checkWin`, which is
already true, so it stops at the first empty cell (1,0). -/
theorem c7_counterexample :
    (∀ p, bRowX p = Cell.Empty →
      ¬ winsFor (Function.update bRowX p Cell.O) Cell.O) ∧
    bRowX center = Cell.Empty ∧
    makeAIMove bRowX 0 ≠ Function.update bRowX center Cell.O := by decide

/-- Claim C7, amended: on every board with no already-completed line
(the situation at every call site of `makeAIMove`), if no single
placement of `O` completes a line of `O` and the center cell (1,1) is
empty, the AI places `O` at the center. -/
theorem c7_theorem (b : Board) (k : Nat) (hw : checkWin b = false)
    (hno : ∀ p, b p = Cell.Empty →
      ¬ winsFor (Function.update b p Cell.O) Cell.O)
    (hc : b center = Cell.Empty) :
    makeAIMove b k = Function.update b center Cell.O := by
  have htry : tryWinCell b = none := by
    unfold tryWinCell
    rw [List.find?_eq_none]
    intro q _
    unfold aiScanPred
    intro hcontra
    rw [Bool.and_eq_true, decide_eq_true_eq] at hcontra
    exact hno q hcontra.1 ((place_win_iff hw q).1 hcontra.2)
  unfold makeAIMove
  rw [htry, if_pos hc]

/-- Claim C7, witness: on the empty board the AI plays the center. -/
theorem c7_witness :
    makeAIMove emptyBoard 0 = Function.update emptyBoard center Cell.O :=
  c7_theorem emptyBoard 0 (by decide) (by decide) (by decide)

/-- Claim C8: `checkDraw` is true exactly when no cell is `Empty`, and
a move (human or AI) that fills the last empty cell while `Playing`
without completing a line for either mark sets the state to `Draw`. -/
theorem c8_theorem :
    (∀ b, checkDraw b = true ↔ ∀ p, b p ≠ Cell.Empty) ∧
    (∀ (g : GState) (i : Input), g.state = GameState.Playing →
      g.currentTurn = Cell.X → i.click = true → inBounds i.row i.col →
      g.board (toPos i.row i.col) = Cell.Empty →
      (∀ p, Function.update g.board (toPos i.row i.col) g.currentTurn p ≠
        Cell.Empty) →
      ¬ winsFor (Function.update g.board (toPos i.row i.col) g.currentTurn)
        Cell.X →
      ¬ winsFor (Function.update g.board (toPos i.row i.col) g.currentTurn)
        Cell.O →
      (update g i).state = GameState.Draw) ∧
    (∀ (g : GState) (i : Input), g.state = GameState.Playing →
      g.currentTurn = Cell.O → g.aiDelay = 0 →
      (∀ p, makeAIMove g.board i.rand p ≠ Cell.Empty) →
      ¬ winsFor (makeAIMove g.board i.rand) Cell.X →
      ¬ winsFor (makeAIMove g.board i.rand) Cell.O →
      (update g i).state = GameState.Draw) := by
  refine ⟨checkDraw_iff, ?_, ?_⟩
  · intro g i hs hx hc hib hemp hfull hnX hnO
    have hw : ¬ checkWin (Function.update g.board (toPos i.row i.col)
        g.currentTurn) = true := by
      rw [checkWin_iff]
      rintro (h | h)
      · exact hnX h
      · exact hnO h
    have hdr : checkDraw (Function.update g.board (toPos i.row i.col)
        g.currentTurn) = true := (checkDraw_iff _).2 hfull
    unfold update
    rw [if_neg (not_not_intro hs), if_pos hx, if_pos ⟨hc, hib, hemp⟩]
    unfold humanPlace
    rw [if_neg hw, if_pos hdr]
  · intro g i hs hO hd hfull hnX hnO
    have hnx : ¬ g.currentTurn = Cell.X := by
      rw [hO]
      exact fun h => Cell.noConfusion h
    have hw : ¬ checkWin (makeAIMove g.board i.rand) = true := by
      rw [checkWin_iff]
      rintro (h | h)
      · exact hnX h
      · exact hnO h
    have hdr : checkDraw (makeAIMove g.board i.rand) = true :=
      (checkDraw_iff _).2 hfull
    unfold update
    rw [if_neg (not_not_intro hs), if_neg hnx, if_neg (by simp [hd]),
      if_neg hw, if_pos hdr]

/-- Claim C8, witness: the full top-row board is not a draw-free board
for the iff, the human filling (2,2) of `gDrawHuman` draws, and the AI
filling (2,2) of `gDrawAI` draws. -/
theorem c8_witness :
    (checkDraw bRowX = true ↔ ∀ p, bRowX p ≠ Cell.Empty) ∧
    (update gDrawHuman ⟨true, 2, 2, 0⟩).state = GameState.Draw ∧
    (update gDrawAI ⟨false, 0, 0, 0⟩).state = GameState.Draw :=
  ⟨c8_theorem.1 bRowX,
   c8_theorem.2.1 gDrawHuman ⟨true, 2, 2, 0⟩ rfl rfl rfl (by decide)
     (by decide) (by decide) (by decide) (by decide),
   c8_theorem.2.2 gDrawAI ⟨false, 0, 0, 0⟩ rfl rfl rfl (by decide)
     (by decide) (by decide)⟩

/-- Claim C9: on every board with at least one empty cell, no placement
of `O` completing a line of `O`, and the center occupied, the AI
places its mark (for any random draw) on a cell that was empty on the
input board. -/
theorem c9_theorem (b : Board) (k : Nat)
    (hne : ∃ p, b p = Cell.Empty)
    (_hno : ∀ p, b p = Cell.Empty →
      ¬ winsFor (Function.update b p Cell.O) Cell.O)
    (_hc : b center ≠ Cell.Empty) :
    ∃ p, b p = Cell.Empty ∧ makeAIMove b k = Function.update b p Cell.O :=
  makeAIMove_places b k hne

/-- Claim C9, witness: with only the center occupied (by `X`), the AI
plays some cell that was empty. -/
theorem c9_witness :
    ∃ p, bCtrX p = Cell.Empty ∧
      makeAIMove bCtrX 0 = Function.update bCtrX p Cell.O :=
  c9_theorem bCtrX 0 ⟨((0 : Fin 3), (0 : Fin 3)), rfl⟩ (by decide) (by decide)

/-- Claim C10: the AI move mutates at most one cell: if the board has
an empty cell it changes exactly one empty cell to `O` and leaves every
other cell unchanged, and on a full board it leaves the board entirely
unchanged. -/
theorem c10_theorem (b : Board) (k : Nat) :
    ((∃ p, b p = Cell.Empty) → ∃ p, b p = Cell.Empty ∧
      makeAIMove b k p = Cell.O ∧
      ∀ q, q ≠ p → makeAIMove b k q = b q) ∧
    ((∀ p, b p ≠ Cell.Empty) → makeAIMove b k = b) := by
  constructor
  · intro h
    obtain ⟨p, hp, he⟩ := makeAIMove_places b k h
    refine ⟨p, hp, ?_, ?_⟩
    · rw [he, Function.update_same]
    · intro q hq
      rw [he, Function.update_noteq hq]
  · exact makeAIMove_full b k

/-- Claim C10, witness: on the empty board the AI changes exactly one
cell, and on a full board it changes nothing. -/
theorem c10_witness :
    (∃ p, emptyBoard p = Cell.Empty ∧ makeAIMove emptyBoard 0 p = Cell.O ∧
      ∀ q, q ≠ p → makeAIMove emptyBoard 0 q = emptyBoard q) ∧
    makeAIMove fullBoardX 0 = fullBoardX :=
  ⟨(c10_theorem emptyBoard 0).1 ⟨((0 : Fin 3), (0 : Fin 3)), rfl⟩,
   (c10_theorem fullBoardX 0).2 (fun _ h => Cell.noConfusion h)⟩
